import Mathlib

/-!
# Verification of the whalrus ballot-conversion and scoring pipeline

Shallow embedding of the whalrus voting library (ballot conversion,
scoring, and rule aggregation) and proofs about it.  Candidates are
modelled as strings; numeric levels, weights and scores are modelled
as rationals (the Python code works with floats / ints whose exact
values in all examples are dyadic or decimal rationals).  Mappings
(Python `dict`) are modelled as association lists in insertion order,
or as `String → Option _` lookup functions where only the mapping
matters.  Fallible Python code (raising `ZeroDivisionError`,
`NotImplementedError`, …) is modelled with `Except Unit`.
-/

namespace Whalrus

/-- Association list from candidates to rational levels,
in Python dict insertion order. -/
abbrev QDict := List (String × ℚ)

/-- Association list from candidates to label levels. -/
abbrev LDict := List (String × String)

/-- Python `dict` lookup (first matching key). -/
def qlookup (d : QDict) (c : String) : Option ℚ :=
  (d.find? (fun p => p.1 = c)).map Prod.snd

/-! ## Scales

`ScaleInterval`, `ScaleRange` and numeric `ScaleFromSet` are bounded
numeric scales with `low`/`high`; a numeric scale may also be
unbounded (`is_bounded = False`), which triggers the re-scaling branch
of `ConverterBallotToLevelsInterval.__call__`.  `ScaleFromList` holds
ordered labels. -/

/-- The scale attached to a numeric `BallotLevels`: either bounded with
known `low`/`high` (covers `ScaleInterval`, `ScaleRange`, numeric
`ScaleFromSet`) or unbounded. -/
inductive SrcScaleNum where
  | bounded (low high : ℚ)
  | unbounded
deriving DecidableEq

/-! ## Ballots

The ballot variants dispatched on by
`ConverterBallotToLevelsInterval.__call__`: `BallotVeto`,
`BallotOneName` (including `BallotPlurality`), `BallotLevels` (with
numeric values on a numeric scale, or label values on a
`ScaleFromList`), and `BallotOrder` (a list of indifference classes,
most preferred first). -/

inductive EBallot where
  /-- `BallotVeto`: a vetoed candidate (`none` = abstention) plus the declared candidate set. -/
  | veto (candidate : Option String) (cands : Finset String)
  /-- `BallotOneName` / `BallotPlurality`: a chosen candidate (`none` = abstention). -/
  | oneName (candidate : Option String) (cands : Finset String)
  /-- `BallotLevels` with numeric values. -/
  | levelsNum (b : QDict) (cands : Finset String) (scale : SrcScaleNum)
  /-- `BallotLevels` with label values on a `ScaleFromList`. -/
  | levelsLab (b : LDict) (cands : Finset String) (levels : List String)
  /-- `BallotOrder`: indifference classes, most preferred first. -/
  | order (classes : List (List String)) (cands : Finset String)
deriving DecidableEq

/-- The declared candidate set of a ballot. -/
def EBallot.candidates : EBallot → Finset String
  | .veto _ F => F
  | .oneName _ F => F
  | .levelsNum _ F _ => F
  | .levelsLab _ F _ => F
  | .order _ F => F

/-! ## `BallotLevels` and its `restrict` (src: ballots/BallotLevels.py) -/

/-- A full `BallotLevels` carrying its scale, for stating scale
preservation under restriction: the scale is an arbitrary value of an
arbitrary type. -/
structure LevelsBallot (Scale : Type) where
  asDict : QDict
  candidates : Finset String
  scale : Scale
deriving DecidableEq

/-- `BallotLevels.restrict` with the scale carried along (src lines
128–134: the new ballot is built with `scale=self.scale`). -/
def LevelsBallot.restrict {Scale : Type} (b : LevelsBallot Scale)
    (cands : Option (Finset String)) : LevelsBallot Scale :=
  match cands with
  | none => b
  | some s => ⟨b.asDict.filter (fun p => p.1 ∈ s), b.candidates ∩ s, b.scale⟩

/-- Modelled from the spec: `BallotOrder.restrict` is not in the source
tree (only `BallotLevels.restrict` is).  Per the spec: drop non-member
candidates from each indifference class, drop empty classes, recompute
the declared candidate set as the intersection. -/
structure OrderBallot where
  classes : List (List String)
  candidates : Finset String
deriving DecidableEq

/-- Modelled from the spec: `BallotOrder.restrict` — filter each class
to members of the subset, drop empty classes, intersect the declared
set. -/
def OrderBallot.restrict (b : OrderBallot) (cands : Option (Finset String)) : OrderBallot :=
  match cands with
  | none => b
  | some s =>
    ⟨(b.classes.map (fun cls => cls.filter (fun c => c ∈ s))).filter (fun cls => ¬ cls = []),
     b.candidates ∩ s⟩

/-! ## Claim C7: restriction composes via intersection -/

theorem filter_mem_inter {α : Type} (f : α → String) (l : List α) (S T : Finset String) :
    (l.filter (fun a => f a ∈ S)).filter (fun a => f a ∈ T)
      = l.filter (fun a => f a ∈ S ∩ T) := by
  rw [List.filter_filter]
  congr 1
  funext a
  by_cases hS : f a ∈ S <;> by_cases hT : f a ∈ T <;> simp [hS, hT]

theorem filter_nonempty_map (f : List String → List String) (hf : f [] = [])
    (l : List (List String)) :
    ((l.filter (fun cls => ¬ cls = [])).map f).filter (fun cls => ¬ cls = [])
      = (l.map f).filter (fun cls => ¬ cls = []) := by
  induction l with
  | nil => rfl
  | cons cls rest ih =>
    by_cases h : cls = []
    · subst h
      have ih' := ih
      simp only [decide_not] at ih'
      simp [hf, ih']
    · have ih' := ih
      simp only [decide_not] at ih'
      simp [List.filter_cons, h, ih']

theorem orderClasses_restrict_restrict (classes : List (List String)) (S T : Finset String) :
    (((classes.map (fun cls => cls.filter (fun c => c ∈ S))).filter
        (fun cls => ¬ cls = [])).map (fun cls => cls.filter (fun c => c ∈ T))).filter
        (fun cls => ¬ cls = [])
    = (classes.map (fun cls => cls.filter (fun c => c ∈ S ∩ T))).filter
        (fun cls => ¬ cls = []) := by
  rw [filter_nonempty_map (fun cls => cls.filter (fun c => c ∈ T)) rfl,
    List.map_map]
  have : ((fun cls => List.filter (fun c => c ∈ T) cls) ∘
      fun cls => List.filter (fun c => c ∈ S) cls)
      = fun cls : List String => cls.filter (fun c => c ∈ S ∩ T) :=
    funext fun cls => filter_mem_inter id cls S T
  rw [this]

/-- **C7**: for every levels ballot (over an arbitrary scale type) and
every order ballot, restricting to `S` and then to `T` equals
restricting to `S ∩ T`: the content is filtered to the intersection,
the declared candidate set becomes the intersection with the ballot's
candidates, and for levels ballots the scale is preserved. -/
theorem restrict_restrict_eq_restrict_inter :
    (∀ (Scale : Type) (b : LevelsBallot Scale) (S T : Finset String),
        (b.restrict (some S)).restrict (some T) = b.restrict (some (S ∩ T)))
    ∧ (∀ (b : OrderBallot) (S T : Finset String),
        (b.restrict (some S)).restrict (some T) = b.restrict (some (S ∩ T)))
    ∧ (∀ (Scale : Type) (b : LevelsBallot Scale) (S : Finset String),
        (b.restrict (some S)).scale = b.scale
          ∧ (b.restrict (some S)).candidates = b.candidates ∩ S
          ∧ (b.restrict (some S)).asDict = b.asDict.filter (fun p => p.1 ∈ S)) := by
  refine ⟨?_, ?_, ?_⟩
  · intro Scale b S T
    simp only [LevelsBallot.restrict]
    rw [filter_mem_inter Prod.fst b.asDict S T, Finset.inter_assoc]
  · intro b S T
    simp only [OrderBallot.restrict]
    rw [orderClasses_restrict_restrict b.classes S T, Finset.inter_assoc]
  · intro Scale b S
    exact ⟨rfl, rfl, rfl⟩

/-! ## `ConverterBallotToLevelsInterval.__call__`
(src: converter_ballot/ConverterBallotToLevelsInterval.py, lines 85–128)

The output `BallotLevels` dictionaries built by iterating a Python
*set* (whose iteration order is arbitrary) are modelled as finite maps
`String → Option ℚ`; dictionaries built from an input dict (whose
iteration order is deterministic) go through an association list and
are then viewed as maps via `qlookup`.  Python exceptions
(`ZeroDivisionError` on a degenerate denominator, `ValueError` on
`min`/`max` of an empty sequence, `KeyError` on a label missing from
the scale) are modelled with `Except.error`. -/

/-- A produced `BallotLevels` on the converter's target scale: the
evaluation dictionary as a finite map, plus the declared candidates. -/
structure LevelsFun where
  score : String → Option ℚ
  candidates : Finset String

/-- `BallotLevels.restrict` (src lines 128–134) on a produced ballot:
filter the mapping to member candidates, intersect the declared set,
preserve the (target) scale. -/
def LevelsFun.restrict (b : LevelsFun) (cands : Option (Finset String)) : LevelsFun :=
  match cands with
  | none => b
  | some s => ⟨fun c => if c ∈ s then b.score c else none, b.candidates ∩ s⟩

/-- A produced label-valued `BallotLevels` on a `ScaleFromList`. -/
structure LevelsLabFun where
  score : String → Option String
  candidates : Finset String
  levels : List String

/-- `BallotLevels.restrict` on a produced label-valued ballot. -/
def LevelsLabFun.restrict (b : LevelsLabFun) (cands : Option (Finset String)) : LevelsLabFun :=
  match cands with
  | none => b
  | some s => ⟨fun c => if c ∈ s then b.score c else none, b.candidates ∩ s, b.levels⟩

/-- Division, guarded: Python raises `ZeroDivisionError` on a zero
denominator. -/
def divE (a b : ℚ) : Except Unit ℚ :=
  if b = 0 then Except.error () else Except.ok (a / b)

/-- Evaluate a Python comprehension over a list where each entry can
raise: the whole comprehension raises iff some entry does. -/
def mapE {α β : Type} (f : α → Except Unit β) : List α → Except Unit (List β)
  | [] => Except.ok []
  | a :: l =>
    match f a, mapE f l with
    | Except.ok b, Except.ok bs => Except.ok (b :: bs)
    | _, _ => Except.error ()

/-- Python `min` over a non-empty sequence (`None` for empty, where
Python raises `ValueError`). -/
def qMin : List ℚ → Option ℚ
  | [] => none
  | v :: l => some (l.foldl min v)

/-- Python `max` over a non-empty sequence. -/
def qMax : List ℚ → Option ℚ
  | [] => none
  | v :: l => some (l.foldl max v)

/-- `ScaleFromList.as_dict[label]`: the 0-based position of a label in
the ordered label list (`none` models the Python `KeyError`). -/
def idxOf? (a : String) : List String → Option ℕ
  | [] => none
  | b :: l => if b = a then some 0 else (idxOf? a l).map (· + 1)

theorem idxOf?_lt_length {a : String} {l : List String} {i : ℕ}
    (h : idxOf? a l = some i) : i < l.length := by
  induction l generalizing i with
  | nil => cases h
  | cons b rest ih =>
    rw [idxOf?] at h
    by_cases hb : b = a
    · rw [if_pos hb] at h
      injection h with h'
      subst h'
      simp
    · rw [if_neg hb] at h
      rcases hr : idxOf? a rest with _ | j <;> rw [hr] at h
      · cases h
      · simp only [Option.map] at h
        injection h with h'
        subst h'
        have := ih hr
        simp only [List.length_cons]
        omega

/-- The affine rescaling
`low + (high - low) * (v - slow) / (shigh - slow)` of src line 112,
guarded against the zero denominator. -/
def affineE (low high slow shigh v : ℚ) : Except Unit ℚ :=
  (divE ((high - low) * (v - slow)) (shigh - slow)).map (fun t => low + t)

/-- Modelled from the spec: `BallotOrder.borda` is not in the source
tree.  Per the spec, a candidate's Borda points are the number of
candidates it strictly dominates plus fractional points for its tied
class (`(size - 1) / 2`); `base` is the number of unordered candidates
when `borda_unordered_give_points` is true (they are then dominated by
every ordered candidate), and `0` otherwise. -/
def bordaList (classes : List (List String)) (base : ℚ) : List (String × ℚ) :=
  match classes with
  | [] => []
  | cls :: rest =>
    cls.map (fun c => (c, (rest.flatten.length : ℚ) + base + ((cls.length : ℚ) - 1) / 2))
      ++ bordaList rest base

/-- `ConverterBallotToLevelsInterval.__call__` (src lines 85–128) with
target scale `ScaleInterval(low, high)`.  The input has already gone
through `ConverterBallotGeneral()(x, candidates=None)`, which is the
identity on ballots. -/
def convertToLevelsInterval (low high : ℚ) (give : Bool)
    (x : EBallot) (cands : Option (Finset String)) : Except Unit LevelsFun :=
  match x with
  | .veto none F => Except.ok (LevelsFun.restrict ⟨fun _ => none, F⟩ cands)
  | .veto (some v) F =>
      Except.ok (LevelsFun.restrict
        ⟨fun c => if c ∈ F then some (if c = v then low else high) else none, F⟩ cands)
  | .oneName none F => Except.ok (LevelsFun.restrict ⟨fun _ => none, F⟩ cands)
  | .oneName (some v) F =>
      Except.ok (LevelsFun.restrict
        ⟨fun c => if c ∈ F then some (if c = v then high else low) else none, F⟩ cands)
  | .levelsNum b F scale =>
      match scale with
      | .bounded slow shigh =>
          (mapE (fun p => (affineE low high slow shigh p.2).map (fun w => (p.1, w))) b).map
            (fun d => LevelsFun.restrict ⟨qlookup d, F⟩ cands)
      | .unbounded =>
          match qMin (b.map Prod.snd), qMax (b.map Prod.snd) with
          | some xmin, some xmax =>
              if low ≤ xmin ∧ xmax ≤ high then
                Except.ok (LevelsFun.restrict ⟨qlookup b, F⟩ cands)
              else
                (mapE (fun p => (affineE low high xmin xmax p.2).map
                    (fun w => (p.1, w))) b).map
                  (fun d => LevelsFun.restrict ⟨qlookup d, F⟩ cands)
          | _, _ => Except.error ()
  | .levelsLab b _F levels =>
      (mapE (fun (p : String × String) =>
        match idxOf? p.2 levels with
        | none => Except.error ()
        | some i => (divE ((high - low) * (i : ℚ)) ((levels.length : ℚ) - 1)).map
            (fun t => (p.1, low + t))) b).map
        (fun d => LevelsFun.restrict ⟨qlookup d, _F⟩ cands)
  | .order classes F =>
      let mentioned := classes.flatten
      let base : ℚ := if give then ((F \ mentioned.toFinset).card : ℚ) else 0
      let scoreMax : ℚ :=
        if give then (F.card : ℚ) - 1 else (mentioned.dedup.length : ℚ) - 1
      (mapE (fun p => (divE ((high - low) * p.2) scoreMax).map (fun t => (p.1, low + t)))
          (bordaList classes base)).map
        (fun d => LevelsFun.restrict ⟨qlookup d, F⟩ cands)

/-- The score of candidate `c` in the produced ballot, `none` when the
conversion raised. -/
def exceptScore (r : Except Unit LevelsFun) (c : String) : Option (Option ℚ) :=
  match r with
  | .error _ => none
  | .ok b => some (b.score c)

/-- The candidate set of the produced ballot, `none` when the
conversion raised. -/
def exceptCands (r : Except Unit LevelsFun) : Option (Finset String) :=
  match r with
  | .error _ => none
  | .ok b => some b.candidates

/-- Whether the conversion raised. -/
def exceptRaised (r : Except Unit LevelsFun) : Bool :=
  match r with
  | .error _ => true
  | .ok _ => false


/-! ## Claim C4: Borda-based conversion of `'a > b > c'` over
`{a,b,c,d,e}` onto `Interval(0, 1)` -/

/-- **C4**: `ConverterBallotToLevelsInterval` with scale
`Interval(0,1)` on the order ballot `'a > b > c'` over candidates
`{a,b,c,d,e}` yields exactly `{a: 1, b: 1/2, c: 0}` with `d`, `e`
unscored when `borda_unordered_give_points = False`, and
`{a: 1, b: 3/4, c: 1/2}` when it is `True`. -/
theorem borda_interval_conversion_example :
    (exceptScore (convertToLevelsInterval 0 1 false
        (.order [["a"], ["b"], ["c"]] {"a", "b", "c", "d", "e"}) none) "a"
          = some (some 1)
      ∧ exceptScore (convertToLevelsInterval 0 1 false
        (.order [["a"], ["b"], ["c"]] {"a", "b", "c", "d", "e"}) none) "b"
          = some (some (1/2))
      ∧ exceptScore (convertToLevelsInterval 0 1 false
        (.order [["a"], ["b"], ["c"]] {"a", "b", "c", "d", "e"}) none) "c"
          = some (some 0)
      ∧ exceptScore (convertToLevelsInterval 0 1 false
        (.order [["a"], ["b"], ["c"]] {"a", "b", "c", "d", "e"}) none) "d"
          = some none
      ∧ exceptScore (convertToLevelsInterval 0 1 false
        (.order [["a"], ["b"], ["c"]] {"a", "b", "c", "d", "e"}) none) "e"
          = some none
      ∧ exceptCands (convertToLevelsInterval 0 1 false
        (.order [["a"], ["b"], ["c"]] {"a", "b", "c", "d", "e"}) none)
          = some {"a", "b", "c", "d", "e"})
    ∧ (exceptScore (convertToLevelsInterval 0 1 true
        (.order [["a"], ["b"], ["c"]] {"a", "b", "c", "d", "e"}) none) "a"
          = some (some 1)
      ∧ exceptScore (convertToLevelsInterval 0 1 true
        (.order [["a"], ["b"], ["c"]] {"a", "b", "c", "d", "e"}) none) "b"
          = some (some (3/4))
      ∧ exceptScore (convertToLevelsInterval 0 1 true
        (.order [["a"], ["b"], ["c"]] {"a", "b", "c", "d", "e"}) none) "c"
          = some (some (1/2))
      ∧ exceptScore (convertToLevelsInterval 0 1 true
        (.order [["a"], ["b"], ["c"]] {"a", "b", "c", "d", "e"}) none) "d"
          = some none
      ∧ exceptScore (convertToLevelsInterval 0 1 true
        (.order [["a"], ["b"], ["c"]] {"a", "b", "c", "d", "e"}) none) "e"
          = some none
      ∧ exceptCands (convertToLevelsInterval 0 1 true
        (.order [["a"], ["b"], ["c"]] {"a", "b", "c", "d", "e"}) none)
          = some {"a", "b", "c", "d", "e"}) := by
  have hd : ["a", "b", "c"].dedup = ["a", "b", "c"] := by decide
  have hc : ({"a", "b", "c", "d", "e"} : Finset String).card = 5 := by decide
  have hb : (({"b", "c", "d", "e"} : Finset String) \ {"a", "b", "c"}).card = 2 := by
    decide
  have hF : convertToLevelsInterval 0 1 false
      (.order [["a"], ["b"], ["c"]] {"a", "b", "c", "d", "e"}) none
      = Except.ok ⟨qlookup [("a", 1), ("b", 1/2), ("c", 0)], {"a", "b", "c", "d", "e"}⟩ := by
    norm_num [convertToLevelsInterval, bordaList, mapE, divE, Except.map,
      LevelsFun.restrict, hd]
  have hT : convertToLevelsInterval 0 1 true
      (.order [["a"], ["b"], ["c"]] {"a", "b", "c", "d", "e"}) none
      = Except.ok ⟨qlookup [("a", 1), ("b", 3/4), ("c", 1/2)], {"a", "b", "c", "d", "e"}⟩ := by
    norm_num [convertToLevelsInterval, bordaList, mapE, divE, Except.map,
      LevelsFun.restrict, hc, hb]
  refine ⟨⟨?_, ?_, ?_, ?_, ?_, ?_⟩, ⟨?_, ?_, ?_, ?_, ?_, ?_⟩⟩ <;>
    simp [hF, hT, exceptScore, exceptCands, qlookup, List.find?]

/-! ## Claim C6: `Veto` / `OneName` ballots map to extremal levels -/

/-- **C6**: converting a veto ballot gives the scale minimum to the
vetoed candidate and the maximum to every other declared candidate; a
one-name/plurality ballot gives the maximum to the chosen candidate
and the minimum to the rest; a `None` candidate — on a veto ballot
(src lines 88–89) as well as on a one-name/plurality ballot (src
lines 93–94) — yields an empty mapping; and
`Veto('a', candidates={a,b,c})` yields
`{a: 0, b: 1, c: 1}` on `Interval(0,1)`. -/
theorem veto_oneName_extremal_levels (low high : ℚ) (give : Bool)
    (v : String) (F : Finset String) (hv : v ∈ F) :
    (exceptScore (convertToLevelsInterval low high give (.veto (some v) F) none) v
        = some (some low)
      ∧ (∀ c ∈ F, c ≠ v →
          exceptScore (convertToLevelsInterval low high give (.veto (some v) F) none) c
            = some (some high))
      ∧ exceptCands (convertToLevelsInterval low high give (.veto (some v) F) none)
          = some F)
    ∧ (exceptScore (convertToLevelsInterval low high give (.oneName (some v) F) none) v
        = some (some high)
      ∧ (∀ c ∈ F, c ≠ v →
          exceptScore (convertToLevelsInterval low high give (.oneName (some v) F) none) c
            = some (some low))
      ∧ exceptCands (convertToLevelsInterval low high give (.oneName (some v) F) none)
          = some F)
    ∧ (∀ c, exceptScore (convertToLevelsInterval low high give (.veto none F) none) c
        = some none)
    ∧ (∀ c, exceptScore (convertToLevelsInterval low high give (.oneName none F) none) c
        = some none)
    ∧ (exceptScore (convertToLevelsInterval 0 1 true
          (.veto (some "a") {"a", "b", "c"}) none) "a" = some (some 0)
      ∧ exceptScore (convertToLevelsInterval 0 1 true
          (.veto (some "a") {"a", "b", "c"}) none) "b" = some (some 1)
      ∧ exceptScore (convertToLevelsInterval 0 1 true
          (.veto (some "a") {"a", "b", "c"}) none) "c" = some (some 1)
      ∧ exceptCands (convertToLevelsInterval 0 1 true
          (.veto (some "a") {"a", "b", "c"}) none) = some {"a", "b", "c"}) := by
  refine ⟨⟨?_, ?_, rfl⟩, ⟨?_, ?_, rfl⟩, fun c => rfl, fun c => rfl, ?_⟩
  · simp [convertToLevelsInterval, LevelsFun.restrict, exceptScore, hv]
  · intro c hc hne
    simp [convertToLevelsInterval, LevelsFun.restrict, exceptScore, hc, hne]
  · simp [convertToLevelsInterval, LevelsFun.restrict, exceptScore, hv]
  · intro c hc hne
    simp [convertToLevelsInterval, LevelsFun.restrict, exceptScore, hc, hne]
  · simp [convertToLevelsInterval, exceptScore, exceptCands, LevelsFun.restrict]

/-- Witness for `veto_oneName_extremal_levels` at
`low = 0`, `high = 1`, `v = "a"`, `F = {"a","b","c"}`. -/
theorem veto_oneName_extremal_levels_witness :
    ("a" : String) ∈ ({"a", "b", "c"} : Finset String)
      ∧ exceptScore (convertToLevelsInterval 0 1 true
          (.veto (some "a") {"a", "b", "c"}) none) "a" = some (some 0) :=
  ⟨by decide, (veto_oneName_extremal_levels 0 1 true "a" {"a", "b", "c"}
      (by decide)).1.1⟩

/-! ## Claim C3: degenerate Borda denominator

src lines 122–127 compute `borda[c] / score_max` with
`score_max = len(x.candidates) - 1` (resp.
`len(x.candidates_in_b) - 1`) and no guard: a single-candidate order
ballot makes `score_max = 0` and the conversion raises
`ZeroDivisionError` instead of returning the maximal scale value. -/

/-- **C3** (code bug): the conversion of a single-candidate order
ballot raises a `ZeroDivisionError`-modelled failure rather than
returning the maximal scale value: `BallotOrder('a')` with
`borda_unordered_give_points=True` over candidates `{a}`, and
`BallotOrder('a')` over `{a, b}` with
`borda_unordered_give_points=False`, both error out. -/
theorem single_candidate_order_division_error :
    exceptRaised (convertToLevelsInterval 0 1 true
        (.order [["a"]] {"a"}) none) = true
      ∧ exceptRaised (convertToLevelsInterval 0 1 false
        (.order [["a"]] {"a", "b"}) none) = true := by
  have hd : ["a"].dedup = ["a"] := by decide
  constructor
  · norm_num [convertToLevelsInterval, bordaList, mapE, divE, exceptRaised,
      Except.map]
  · norm_num [convertToLevelsInterval, bordaList, mapE, divE, exceptRaised,
      Except.map, hd]

/-! ## Claim C2: `ConverterBallotToLevels.__init__` with `scale=None`
(src: converter_ballot/ConverterBallotToLevels.py, lines 47–72)

The constructor body is:
```
if scale is None:
    self._aux_converter = ConverterBallotToLevelsInterval(ScaleInterval(0., 1.), ...)
if isinstance(scale, ScaleInterval): ...
elif isinstance(scale, ScaleRange): ...
elif isinstance(scale, ScaleFromList): ...
else:
    raise NotImplementedError
```
The first statement is an `if`, and the second `if`/`elif`/`else`
chain is separate: when `scale` is `None`, every `isinstance` test is
false, so the `else` branch raises `NotImplementedError` — even
though the first statement had already assigned the interval-`[0,1]`
auxiliary converter, and even though the class docstring documents
`scale=None` as supported. -/

/-- The `scale` argument of `ConverterBallotToLevels.__init__`. -/
inductive ScaleArg where
  | noScale
  | interval (low high : ℚ)
  | range (low high : ℤ)
  | fromList (levels : List String) (isNumeric : Bool)
  | other
deriving DecidableEq

/-- The auxiliary converter selected by
`ConverterBallotToLevels.__init__`. -/
inductive AuxConverter where
  | interval (low high : ℚ)
  | range (low high : ℤ)
  | listNumeric (levels : List String)
  | listNonNumeric (levels : List String)
deriving DecidableEq

/-- `ConverterBallotToLevels.__init__` (src lines 47–67): the net
effect of the two statements above.  The assignment guarded by
`if scale is None` is dead: for `scale=None` the following
`if`/`elif`/`else` chain overwrites nothing and raises
`NotImplementedError`, and for any other `scale` one of its branches
assigns the auxiliary converter or raises. -/
def converterBallotToLevelsInit (scale : ScaleArg) : Except Unit AuxConverter :=
  match scale with
  | .interval l h => Except.ok (.interval l h)
  | .range l h => Except.ok (.range l h)
  | .fromList levels isNum =>
      Except.ok (if isNum then .listNumeric levels else .listNonNumeric levels)
  | .noScale => Except.error ()
  | .other => Except.error ()

/-- **C2** (code bug): constructing `ConverterBallotToLevels` with
`scale=None` raises `NotImplementedError` instead of succeeding with
the default continuous `[0,1]` interval scale: the `if scale is None`
assignment is followed by a separate `if/elif/else` chain whose
`else` raises.  An explicit `ScaleInterval` works. -/
theorem converter_to_levels_default_scale_raises :
    converterBallotToLevelsInit .noScale = Except.error ()
      ∧ converterBallotToLevelsInit (.interval 0 1) = Except.ok (.interval 0 1) :=
  ⟨rfl, rfl⟩

/-! ## `ScorerBucklin.scores_` (src: scorer/ScorerBucklin.py, lines 62–97)

Scores are a finite map `String → Option ℚ` (`none` = the candidate
is absent from the Python score dictionary).  `scores.update({c: v
for c in cls})` is modelled as a pointwise function update on the
members of `cls`. -/

/-- `scores.update({c: v for c in cls})` for a list of candidates. -/
def updList (cls : List String) (v : ℚ) (f : String → Option ℚ) : String → Option ℚ :=
  fun c => if c ∈ cls then some v else f c

/-- `scores.update({c: v for c in s})` for a set of candidates. -/
def updSet (s : Finset String) (v : ℚ) (f : String → Option ℚ) : String → Option ℚ :=
  fun c => if c ∈ s then some v else f c

/-- The loop over `self.ballot_.as_weak_order` (src lines 67–74):
each indifference class that fits in the remaining budget gets 1
point per member; a class that exceeds it splits the remaining budget
evenly and zeroes it. -/
def bucklinOrdered :
    List (List String) → ℚ → (String → Option ℚ) → (String → Option ℚ) × ℚ
  | [], rem, acc => (acc, rem)
  | cls :: rest, rem, acc =>
    if (cls.length : ℚ) ≤ rem then
      bucklinOrdered rest (rem - (cls.length : ℚ)) (updList cls 1 acc)
    else
      bucklinOrdered rest 0 (updList cls (rem / (cls.length : ℚ)) acc)

/-- The ballot seen by `ScorerBucklin`: its weak order
(`as_weak_order`) and its declared candidates. -/
structure BucklinBallot where
  classes : List (List String)
  cands : Finset String

/-- Modelled from the spec: `BallotOrder.candidates_not_in_b` is not
in the source tree; per the spec it is the declared candidates not
mentioned in the order. -/
def BucklinBallot.unordered (b : BucklinBallot) : Finset String :=
  b.cands \ b.classes.flatten.toFinset

/-- `ScorerBucklin.scores_` (src lines 62–97): ordered candidates,
then unordered candidates per `unordered_receive_points`, then absent
candidates per `absent_receive_points` (`some true` = share the
remaining budget like ordered ties, `some false` = score 0, `none` =
leave out of the mapping).  In the `absent` phase the code does not
decrement the budget after a fitting update (src line 94). -/
def bucklinScores (k : ℚ) (unorderedFlag absentFlag : Option Bool)
    (b : BucklinBallot) (electionCands : Finset String) : String → Option ℚ :=
  let r₁ := bucklinOrdered b.classes k (fun _ => none)
  let r₂ :=
    match unorderedFlag with
    | some false => (updSet b.unordered 0 r₁.1, r₁.2)
    | some true =>
        if (b.unordered.card : ℚ) ≤ r₁.2 then
          (updSet b.unordered 1 r₁.1, r₁.2 - (b.unordered.card : ℚ))
        else (updSet b.unordered (r₁.2 / (b.unordered.card : ℚ)) r₁.1, 0)
    | none => r₁
  let absent := electionCands \ b.cands
  match absentFlag with
  | some false => updSet absent 0 r₂.1
  | some true =>
      if (absent.card : ℚ) ≤ r₂.2 then updSet absent 1 r₂.1
      else updSet absent (r₂.2 / (absent.card : ℚ)) r₂.1
  | none => r₂.1

theorem updSet_apply_not_mem {s : Finset String} {v : ℚ} {f : String → Option ℚ}
    {c : String} (h : c ∉ s) : updSet s v f c = f c := by
  simp [updSet, h]

theorem updSet_apply_mem {s : Finset String} {v : ℚ} {f : String → Option ℚ}
    {c : String} (h : c ∈ s) : updSet s v f c = some v := by
  simp [updSet, h]

theorem updList_apply_not_mem {cls : List String} {v : ℚ} {f : String → Option ℚ}
    {c : String} (h : c ∉ cls) : updList cls v f c = f c := by
  simp [updList, h]

/-- A candidate in no indifference class is untouched by the ordered
loop. -/
theorem bucklinOrdered_apply_not_mem (classes : List (List String)) (rem : ℚ)
    (acc : String → Option ℚ) (c : String) (hc : ∀ cls ∈ classes, c ∉ cls) :
    (bucklinOrdered classes rem acc).1 c = acc c := by
  induction classes generalizing rem acc with
  | nil => rfl
  | cons cls rest ih =>
    have h1 : c ∉ cls := hc cls (by simp)
    have h2 : ∀ cl ∈ rest, c ∉ cl := fun cl hcl => hc cl (by simp [hcl])
    by_cases h : ((cls.length : ℚ) ≤ rem) <;>
      simp [bucklinOrdered, h, ih _ _ h2, updList_apply_not_mem h1]

/-- A member of a class that fits in (resp. exceeds) the budget, and
of no later class, scores 1 (resp. the split remaining budget). -/
theorem bucklinOrdered_head_class (cls : List String) (rest : List (List String))
    (rem : ℚ) (acc : String → Option ℚ) (c : String) (hc : c ∈ cls)
    (hrest : ∀ cl ∈ rest, c ∉ cl) :
    (bucklinOrdered (cls :: rest) rem acc).1 c
      = if (cls.length : ℚ) ≤ rem then some 1 else some (rem / (cls.length : ℚ)) := by
  by_cases h : ((cls.length : ℚ) ≤ rem) <;>
    simp [bucklinOrdered, h, bucklinOrdered_apply_not_mem _ _ _ _ hrest, updList, hc]

/-- The ballot `'a > b > c > d > e'` (all five candidates ordered). -/
def bucklinEx1 : BucklinBallot := ⟨[["a"], ["b"], ["c"], ["d"], ["e"]], {"a", "b", "c", "d", "e"}⟩

/-- The ballot `'a > b ~ c'` over declared candidates `{a,b,c,d,e}`. -/
def bucklinEx2 : BucklinBallot := ⟨[["a"], ["b", "c"]], {"a", "b", "c", "d", "e"}⟩

/-- **C5**: the Bucklin scorer gives 1 point to each member of a class
fitting in the remaining budget and splits the remaining budget evenly
over a class exceeding it; unordered and absent candidates follow
their policy flags (`true` = share the remaining budget, `false` =
score 0, `none` = omitted from the mapping); `'a>b>c>d>e'` with `k=2`
scores `{a:1, b:1, c:0, d:0, e:0}`, and `'a > b ~ c'` with `k=4` over
election candidates `{a,…,g}` scores
`{a:1, b:1, c:1, d:1/2, e:1/2, f:0, g:0}`. -/
theorem bucklin_scores_spec :
    (bucklinScores 2 (some true) (some true) bucklinEx1 {"a", "b", "c", "d", "e"} "a" = some 1
      ∧ bucklinScores 2 (some true) (some true) bucklinEx1 {"a", "b", "c", "d", "e"} "b" = some 1
      ∧ bucklinScores 2 (some true) (some true) bucklinEx1 {"a", "b", "c", "d", "e"} "c" = some 0
      ∧ bucklinScores 2 (some true) (some true) bucklinEx1 {"a", "b", "c", "d", "e"} "d" = some 0
      ∧ bucklinScores 2 (some true) (some true) bucklinEx1 {"a", "b", "c", "d", "e"} "e" = some 0)
    ∧ (bucklinScores 4 (some true) (some true) bucklinEx2 {"a", "b", "c", "d", "e", "f", "g"} "a" = some 1
      ∧ bucklinScores 4 (some true) (some true) bucklinEx2 {"a", "b", "c", "d", "e", "f", "g"} "b" = some 1
      ∧ bucklinScores 4 (some true) (some true) bucklinEx2 {"a", "b", "c", "d", "e", "f", "g"} "c" = some 1
      ∧ bucklinScores 4 (some true) (some true) bucklinEx2 {"a", "b", "c", "d", "e", "f", "g"} "d" = some (1/2)
      ∧ bucklinScores 4 (some true) (some true) bucklinEx2 {"a", "b", "c", "d", "e", "f", "g"} "e" = some (1/2)
      ∧ bucklinScores 4 (some true) (some true) bucklinEx2 {"a", "b", "c", "d", "e", "f", "g"} "f" = some 0
      ∧ bucklinScores 4 (some true) (some true) bucklinEx2 {"a", "b", "c", "d", "e", "f", "g"} "g" = some 0)
    ∧ (∀ (cls : List String) (rest : List (List String)) (rem : ℚ)
        (acc : String → Option ℚ) (c : String), c ∈ cls → (∀ cl ∈ rest, c ∉ cl) →
        (bucklinOrdered (cls :: rest) rem acc).1 c
          = if (cls.length : ℚ) ≤ rem then some 1 else some (rem / (cls.length : ℚ)))
    ∧ (∀ (k : ℚ) (aF : Option Bool) (b : BucklinBallot) (E : Finset String) (c : String),
        c ∈ b.unordered → bucklinScores k (some false) aF b E c = some 0)
    ∧ (∀ (k : ℚ) (aF : Option Bool) (b : BucklinBallot) (E : Finset String) (c : String),
        c ∈ b.unordered → bucklinScores k none aF b E c = none)
    ∧ (∀ (k : ℚ) (uF : Option Bool) (b : BucklinBallot) (E : Finset String) (c : String),
        c ∈ E \ b.cands → bucklinScores k uF (some false) b E c = some 0)
    ∧ (∀ (k : ℚ) (uF : Option Bool) (b : BucklinBallot) (E : Finset String) (c : String),
        (∀ cls ∈ b.classes, ∀ x ∈ cls, x ∈ b.cands) → c ∈ E \ b.cands →
        bucklinScores k uF none b E c = none) := by
  have hu1 : (BucklinBallot.mk [["a"], ["b"], ["c"], ["d"], ["e"]]
      {"a", "b", "c", "d", "e"}).unordered = ∅ := by decide
  have ha1 : ({"a", "b", "c", "d", "e"} : Finset String) \ {"a", "b", "c", "d", "e"} = ∅ := by
    decide
  have hu2 : (BucklinBallot.mk [["a"], ["b", "c"]]
      {"a", "b", "c", "d", "e"}).unordered = {"d", "e"} := by decide
  have ha2 : ({"a", "b", "c", "d", "e", "f", "g"} : Finset String) \ {"a", "b", "c", "d", "e"}
      = {"f", "g"} := by decide
  have hde : ({"d", "e"} : Finset String).card = 2 := by decide
  have hfg : ({"f", "g"} : Finset String).card = 2 := by decide
  refine ⟨⟨?_, ?_, ?_, ?_, ?_⟩, ⟨?_, ?_, ?_, ?_, ?_, ?_, ?_⟩, ?_, ?_, ?_, ?_, ?_⟩
  case _ =>
    norm_num [bucklinScores, bucklinOrdered, updList, updSet, bucklinEx1, hu1, ha1]
    try simp
  case _ =>
    norm_num [bucklinScores, bucklinOrdered, updList, updSet, bucklinEx1, hu1, ha1]
    try simp
  case _ =>
    norm_num [bucklinScores, bucklinOrdered, updList, updSet, bucklinEx1, hu1, ha1]
    try simp
  case _ =>
    norm_num [bucklinScores, bucklinOrdered, updList, updSet, bucklinEx1, hu1, ha1]
    try simp
  case _ =>
    norm_num [bucklinScores, bucklinOrdered, updList, updSet, bucklinEx1, hu1, ha1]
    try simp
  case _ =>
    norm_num [bucklinScores, bucklinOrdered, updList, updSet, bucklinEx2, hu2, ha2, hde, hfg]
    try simp
  case _ =>
    norm_num [bucklinScores, bucklinOrdered, updList, updSet, bucklinEx2, hu2, ha2, hde, hfg]
    try simp
  case _ =>
    norm_num [bucklinScores, bucklinOrdered, updList, updSet, bucklinEx2, hu2, ha2, hde, hfg]
    try simp
  case _ =>
    norm_num [bucklinScores, bucklinOrdered, updList, updSet, bucklinEx2, hu2, ha2, hde, hfg]
    try simp
  case _ =>
    norm_num [bucklinScores, bucklinOrdered, updList, updSet, bucklinEx2, hu2, ha2, hde, hfg]
    try simp
  case _ =>
    norm_num [bucklinScores, bucklinOrdered, updList, updSet, bucklinEx2, hu2, ha2, hde, hfg]
    try simp
  case _ =>
    norm_num [bucklinScores, bucklinOrdered, updList, updSet, bucklinEx2, hu2, ha2, hde, hfg]
    try simp
  case _ =>
    intro cls rest rem acc c hc hrest
    exact bucklinOrdered_head_class cls rest rem acc c hc hrest
  case _ =>
    intro k aF b E c hc
    have hcand : c ∈ b.cands := (Finset.mem_sdiff.1 hc).1
    have habs : c ∉ E \ b.cands := by simp [Finset.mem_sdiff, hcand]
    rcases aF with _ | aFb
    · simp [bucklinScores, updSet_apply_mem hc]
    · cases aFb
      · simp [bucklinScores, updSet_apply_not_mem habs, updSet_apply_mem hc]
      · simp only [bucklinScores]
        split <;> simp [updSet_apply_not_mem habs, updSet_apply_mem hc]
  case _ =>
    intro k aF b E c hc
    have hcand : c ∈ b.cands := (Finset.mem_sdiff.1 hc).1
    have habs : c ∉ E \ b.cands := by simp [Finset.mem_sdiff, hcand]
    have hnotm : c ∉ b.classes.flatten := by
      have h2 := (Finset.mem_sdiff.1 hc).2
      simpa using h2
    have hcls : ∀ cls ∈ b.classes, c ∉ cls := by
      intro cls hcl hmem
      exact hnotm (List.mem_flatten.2 ⟨cls, hcl, hmem⟩)
    have h1 : (bucklinOrdered b.classes k (fun _ => none)).1 c = none :=
      bucklinOrdered_apply_not_mem _ _ _ _ hcls
    rcases aF with _ | aFb
    · simp [bucklinScores, h1]
    · cases aFb
      · simp [bucklinScores, updSet_apply_not_mem habs, h1]
      · simp only [bucklinScores]
        split <;> simp [updSet_apply_not_mem habs, h1]
  case _ =>
    intro k uF b E c hc
    simp [bucklinScores, updSet_apply_mem hc]
  case _ =>
    intro k uF b E c hsub hc
    have hcnot : c ∉ b.cands := (Finset.mem_sdiff.1 hc).2
    have hcls : ∀ cls ∈ b.classes, c ∉ cls := fun cls hmem hin => hcnot (hsub cls hmem c hin)
    have h1 : (bucklinOrdered b.classes k (fun _ => none)).1 c = none :=
      bucklinOrdered_apply_not_mem _ _ _ _ hcls
    have hun : c ∉ b.unordered := by
      simp [BucklinBallot.unordered, Finset.mem_sdiff, hcnot]
    rcases uF with _ | uFb
    · simp [bucklinScores, h1]
    · cases uFb
      · simp [bucklinScores, updSet_apply_not_mem hun, h1]
      · simp only [bucklinScores]
        split <;> simp [updSet_apply_not_mem hun, h1]

/-- Witness for `bucklin_scores_spec` instantiating its
hypothesis-bearing conjuncts at concrete inputs. -/
theorem bucklin_scores_spec_witness :
    bucklinScores 6 (some false) (some true) bucklinEx2 {"a", "b", "c", "d", "e", "f", "g"} "d"
        = some 0
      ∧ bucklinScores 6 none (some true) bucklinEx2 {"a", "b", "c", "d", "e", "f", "g"} "d"
        = none
      ∧ bucklinScores 6 (some true) (some false) bucklinEx2 {"a", "b", "c", "d", "e", "f", "g"} "f"
        = some 0
      ∧ bucklinScores 6 (some true) none bucklinEx2 {"a", "b", "c", "d", "e", "f", "g"} "f"
        = none := by
  have hd : ("d" : String) ∈ bucklinEx2.unordered := by decide
  have hf : ("f" : String) ∈ ({"a", "b", "c", "d", "e", "f", "g"} : Finset String) \ bucklinEx2.cands := by
    decide
  have hsub : ∀ cls ∈ bucklinEx2.classes, ∀ x ∈ cls, x ∈ bucklinEx2.cands := by decide
  exact ⟨bucklin_scores_spec.2.2.2.1 6 (some true) bucklinEx2 _ "d" hd,
    bucklin_scores_spec.2.2.2.2.1 6 (some true) bucklinEx2 _ "d" hd,
    bucklin_scores_spec.2.2.2.2.2.1 6 (some true) bucklinEx2 _ "f" hf,
    bucklin_scores_spec.2.2.2.2.2.2 6 (some true) bucklinEx2 _ "f" hsub hf⟩

/-! ## Claim C8: `Rule.__call__` / `Matrix.__call__`
(src: rule/Rule.py lines 79–93, matrix/Matrix.py lines 66–80)

Both load the profile, convert every ballot with the injected
converter, infer the candidate set as the union of the converted
ballots' candidate sets when no explicit `candidates` is given, and
call `_check_profile`, which only logs a warning when some converted
ballot's candidate set differs.  The observable outcome is modelled as
a `CallState`; `_check_profile`'s `logging.warning` is modelled as the
`warned` flag — there is no raise on this path, so the model is a
total function into `CallState`. -/

/-- The observable state after `Rule.__call__` / `Matrix.__call__`. -/
structure CallState where
  profileConverted : List EBallot
  candidates : Finset String
  warned : Bool

/-- `Rule.__call__` (src Rule.py lines 79–93) with the injected
converter `conv`. -/
def ruleCall (conv : EBallot → Option (Finset String) → EBallot)
    (ballots : List EBallot) (candidates : Option (Finset String)) : CallState :=
  let converted := ballots.map (fun b => conv b candidates)
  let cands :=
    match candidates with
    | some s => s
    | none => converted.foldl (fun acc b => acc ∪ b.candidates) ∅
  { profileConverted := converted, candidates := cands,
    warned := converted.any (fun b => ¬ b.candidates = cands) }

/-- `Matrix.__call__` (src Matrix.py lines 66–80); textually the same
load/convert/infer/check sequence as `Rule.__call__`. -/
def matrixCall (conv : EBallot → Option (Finset String) → EBallot)
    (ballots : List EBallot) (candidates : Option (Finset String)) : CallState :=
  let converted := ballots.map (fun b => conv b candidates)
  let cands :=
    match candidates with
    | some s => s
    | none => converted.foldl (fun acc b => acc ∪ b.candidates) ∅
  { profileConverted := converted, candidates := cands,
    warned := converted.any (fun b => ¬ b.candidates = cands) }

theorem mem_foldl_union {α : Type} (f : α → Finset String) (l : List α)
    (init : Finset String) (c : String) :
    (c ∈ l.foldl (fun acc b => acc ∪ f b) init)
      ↔ (c ∈ init ∨ ∃ b ∈ l, c ∈ f b) := by
  induction l generalizing init with
  | nil => simp
  | cons b rest ih =>
    simp only [List.foldl_cons, ih, Finset.mem_union, List.mem_cons]
    constructor
    · rintro ((h | h) | ⟨d, hd, hc⟩)
      · exact Or.inl h
      · exact Or.inr ⟨b, Or.inl rfl, h⟩
      · exact Or.inr ⟨d, Or.inr hd, hc⟩
    · rintro (h | ⟨d, (rfl | hd), hc⟩)
      · exact Or.inl (Or.inl h)
      · exact Or.inl (Or.inr hc)
      · exact Or.inr ⟨d, hd, hc⟩

/-- **C8**: with no explicit `candidates`, `Rule.__call__` and
`Matrix.__call__` infer the election candidate set as the union of the
converted ballots' candidate sets; a ballot whose candidate set
disagrees only sets the logged warning (`warned` is true exactly when
some converted ballot disagrees), and the call always returns
normally, with the converted profile and the declared/inferred
candidate set intact. -/
theorem rule_matrix_candidate_inference_and_warning :
    (∀ (conv : EBallot → Option (Finset String) → EBallot)
        (ballots : List EBallot) (c : String),
        c ∈ (ruleCall conv ballots none).candidates
          ↔ ∃ b ∈ ballots, c ∈ (conv b none).candidates)
    ∧ (∀ (conv : EBallot → Option (Finset String) → EBallot)
        (ballots : List EBallot) (c : String),
        c ∈ (matrixCall conv ballots none).candidates
          ↔ ∃ b ∈ ballots, c ∈ (conv b none).candidates)
    ∧ (∀ (conv : EBallot → Option (Finset String) → EBallot)
        (ballots : List EBallot) (cands : Option (Finset String)),
        ((ruleCall conv ballots cands).warned = true
            ↔ ∃ b ∈ ballots, (conv b cands).candidates ≠ (ruleCall conv ballots cands).candidates)
          ∧ (ruleCall conv ballots cands).profileConverted
              = ballots.map (fun b => conv b cands)
          ∧ (∀ s, (ruleCall conv ballots (some s)).candidates = s))
    ∧ (∀ (conv : EBallot → Option (Finset String) → EBallot)
        (ballots : List EBallot) (cands : Option (Finset String)),
        ((matrixCall conv ballots cands).warned = true
            ↔ ∃ b ∈ ballots, (conv b cands).candidates ≠ (matrixCall conv ballots cands).candidates)
          ∧ (matrixCall conv ballots cands).profileConverted
              = ballots.map (fun b => conv b cands)
          ∧ (∀ s, (matrixCall conv ballots (some s)).candidates = s)) := by
  refine ⟨?_, ?_, ?_, ?_⟩
  · intro conv ballots c
    simpa [ruleCall] using mem_foldl_union (fun b => b.candidates)
      (ballots.map (fun b => conv b none)) ∅ c
  · intro conv ballots c
    simpa [matrixCall] using mem_foldl_union (fun b => b.candidates)
      (ballots.map (fun b => conv b none)) ∅ c
  · intro conv ballots cands
    refine ⟨?_, rfl, fun s => rfl⟩
    simp [ruleCall, List.any_eq_true]
  · intro conv ballots cands
    refine ⟨?_, rfl, fun s => rfl⟩
    simp [matrixCall, List.any_eq_true]

/-! ## Claim C10: the two copies of `ConverterBallotGeneral`
(src: converter_ballot/ConverterBallotGeneral.py lines 58–91 and
converters_ballot/ConverterBallotGeneral.py lines 61–93)

Each copy dispatches on the runtime type of its input through its own
package's ballot classes.  Those class hierarchies are abstracted as a
`GeneralBallotOps` record (classification, the four `restrict`
methods with their priority arguments, the `BallotLevels` /
`BallotOrder` / `BallotOneName` constructors: `BallotOrder(x)` can
raise `TypeError`/`ParseException`, modelled as `Option`); each
converter copy is embedded against the record following its own file,
and the two embeddings are compared for every input, candidate set
and priority options.  `NotImplementedError` on an unrecognised
ballot subclass is `Except.error`. -/

/-- The ballot subclasses `__call__` dispatches on, in the order the
`isinstance` tests run (`BallotOrder` first — a `BallotLevels` is a
`BallotOrder` —, then `BallotPlurality`, `BallotVeto`,
`BallotOneName`, and anything else). -/
inductive GKind where
  | order
  | plurality
  | veto
  | oneName
  | other
deriving DecidableEq

/-- The operations of a ballot package consumed by
`ConverterBallotGeneral.__call__`. -/
structure GeneralBallotOps (Raw Ballot Dict Priority : Type) where
  /-- `isinstance(x, Ballot)` with the downcast. -/
  asBallot : Raw → Option Ballot
  /-- first matching subclass in the dispatch order. -/
  kind : Ballot → GKind
  /-- `BallotOrder.restrict(candidates)`. -/
  restrictOrder : Ballot → Finset String → Ballot
  /-- `BallotPlurality.restrict(candidates, priority)`. -/
  restrictPlurality : Ballot → Finset String → Priority → Ballot
  /-- `BallotVeto.restrict(candidates, priority)`. -/
  restrictVeto : Ballot → Finset String → Priority → Ballot
  /-- `BallotOneName.restrict(candidates, priority)`. -/
  restrictOneName : Ballot → Finset String → Priority → Ballot
  /-- `isinstance(x, dict)` with the downcast. -/
  asDict : Raw → Option Dict
  /-- `BallotLevels(x)` from a dict. -/
  mkLevels : Dict → Ballot
  /-- `BallotOrder(x)`: `none` models `TypeError` / `ParseException`. -/
  parseOrder : Raw → Option Ballot
  /-- `len(ballot_order)`. -/
  orderLen : Ballot → ℕ
  /-- `BallotOneName(x)` from a raw value. -/
  mkOneName : Raw → Ballot

/-- The `isinstance(x, Ballot)` branch of
converter_ballot/ConverterBallotGeneral.py lines 67–79: restriction
dispatch with the converter priority options. -/
def generalRestrictA {Raw Ballot Dict Priority : Type}
    (ops : GeneralBallotOps Raw Ballot Dict Priority)
    (pluralityPriority vetoPriority oneNamePriority : Priority)
    (b : Ballot) (cands : Option (Finset String)) : Except Unit Ballot :=
  match cands with
  | none => Except.ok b
  | some s =>
    match ops.kind b with
    | .order => Except.ok (ops.restrictOrder b s)
    | .plurality => Except.ok (ops.restrictPlurality b s pluralityPriority)
    | .veto => Except.ok (ops.restrictVeto b s vetoPriority)
    | .oneName => Except.ok (ops.restrictOneName b s oneNamePriority)
    | .other => Except.error ()

/-- `ConverterBallotGeneral.__call__` of
converter_ballot/ConverterBallotGeneral.py (lines 66–91): the
type-inference cascade; recursive `self(...)` calls on
freshly-constructed ballots re-enter the `isinstance(x, Ballot)`
branch. -/
def converterBallotGeneralA {Raw Ballot Dict Priority : Type}
    (ops : GeneralBallotOps Raw Ballot Dict Priority)
    (pluralityPriority vetoPriority oneNamePriority : Priority)
    (x : Raw) (cands : Option (Finset String)) : Except Unit Ballot :=
  match ops.asBallot x with
  | some b => generalRestrictA ops pluralityPriority vetoPriority oneNamePriority b cands
  | none =>
    match ops.asDict x with
    | some d =>
      generalRestrictA ops pluralityPriority vetoPriority oneNamePriority (ops.mkLevels d) cands
    | none =>
      match ops.parseOrder x with
      | some bo =>
        if ops.orderLen bo = 1 then
          generalRestrictA ops pluralityPriority vetoPriority oneNamePriority
            (ops.mkOneName x) cands
        else
          generalRestrictA ops pluralityPriority vetoPriority oneNamePriority bo cands
      | none =>
        generalRestrictA ops pluralityPriority vetoPriority oneNamePriority
          (ops.mkOneName x) cands

/-- The `isinstance(x, Ballot)` branch of
converters_ballot/ConverterBallotGeneral.py lines 69–81. -/
def generalRestrictB {Raw Ballot Dict Priority : Type}
    (ops : GeneralBallotOps Raw Ballot Dict Priority)
    (pluralityPriority vetoPriority oneNamePriority : Priority)
    (b : Ballot) (cands : Option (Finset String)) : Except Unit Ballot :=
  match cands with
  | none => Except.ok b
  | some s =>
    match ops.kind b with
    | .order => Except.ok (ops.restrictOrder b s)
    | .plurality => Except.ok (ops.restrictPlurality b s pluralityPriority)
    | .veto => Except.ok (ops.restrictVeto b s vetoPriority)
    | .oneName => Except.ok (ops.restrictOneName b s oneNamePriority)
    | .other => Except.error ()

/-- `ConverterBallotGeneral.__call__` of
converters_ballot/ConverterBallotGeneral.py (lines 68–93). -/
def converterBallotGeneralB {Raw Ballot Dict Priority : Type}
    (ops : GeneralBallotOps Raw Ballot Dict Priority)
    (pluralityPriority vetoPriority oneNamePriority : Priority)
    (x : Raw) (cands : Option (Finset String)) : Except Unit Ballot :=
  match ops.asBallot x with
  | some b => generalRestrictB ops pluralityPriority vetoPriority oneNamePriority b cands
  | none =>
    match ops.asDict x with
    | some d =>
      generalRestrictB ops pluralityPriority vetoPriority oneNamePriority (ops.mkLevels d) cands
    | none =>
      match ops.parseOrder x with
      | some bo =>
        if ops.orderLen bo = 1 then
          generalRestrictB ops pluralityPriority vetoPriority oneNamePriority
            (ops.mkOneName x) cands
        else
          generalRestrictB ops pluralityPriority vetoPriority oneNamePriority bo cands
      | none =>
        generalRestrictB ops pluralityPriority vetoPriority oneNamePriority
          (ops.mkOneName x) cands

/-- **C10**: the two `ConverterBallotGeneral` copies are behaviourally
equivalent — over the same ballot-package operations, the same
priority options, every input and every candidate set (including
`None`), they return equal results and fail identically. -/
theorem converter_ballot_general_copies_equivalent
    {Raw Ballot Dict Priority : Type}
    (ops : GeneralBallotOps Raw Ballot Dict Priority)
    (pluralityPriority vetoPriority oneNamePriority : Priority)
    (x : Raw) (cands : Option (Finset String)) :
    converterBallotGeneralA ops pluralityPriority vetoPriority oneNamePriority x cands
      = converterBallotGeneralB ops pluralityPriority vetoPriority oneNamePriority x cands := by
  have hrestrict : ∀ (b : Ballot),
      generalRestrictA ops pluralityPriority vetoPriority oneNamePriority b cands
        = generalRestrictB ops pluralityPriority vetoPriority oneNamePriority b cands := by
    intro b
    cases cands with
    | none => rfl
    | some s =>
      simp only [generalRestrictA, generalRestrictB]
  simp only [converterBallotGeneralA, converterBallotGeneralB]
  cases ops.asBallot x with
  | some b => exact hrestrict b
  | none =>
    cases ops.asDict x with
    | some d => exact hrestrict _
    | none =>
      cases ops.parseOrder x with
      | some bo =>
        by_cases h : ops.orderLen bo = 1 <;> simp [h, hrestrict]
      | none => exact hrestrict _

/-! ## Claim C1: `RuleMajorityJudgment`
(src: rule/RuleMajorityJudgment.py, lines 99–139)

`scorer` defaults to `ScorerLevels` — modelled from the spec:
`ScorerLevels` is not in the source tree; it returns the levels
ballot's own evaluations, so a candidate's (level, weight) pairs are
collected from the ballots that evaluate it, in profile order.
`scale.argsort` on the default numeric scale is a stable sort by
level, modelled with `List.insertionSort` on the first component.
Levels and weights are rationals. -/

/-- The sort key used by `argsort` on the (level, weight) pairs: by
level. -/
def pairLE (p q : ℚ × ℚ) : Prop := p.1 ≤ q.1

instance : DecidableRel pairLE := fun p q => inferInstanceAs (Decidable (p.1 ≤ q.1))

/-- The median loop of src lines 117–123: walk the sorted pairs
accumulating weight, return the first level whose cumulative weight
reaches half the total. -/
def mjMedianLoop : List (ℚ × ℚ) → ℚ → ℚ → Option ℚ
  | [], _, _ => none
  | (lv, w) :: rest, cum, half =>
    if half ≤ cum + w then some lv else mjMedianLoop rest (cum + w) half

/-- `RuleMajorityJudgment.scores_` for one candidate, given its
(level, weight) pairs (src lines 108–129).  An empty list gives
`(default_median = None, 0, 0)`; otherwise the pairs are sorted by
level, the weighted lower median `m` is found, `p` (resp. `q`) is the
weight strictly above (resp. below) `m`, and the score is
`(m, p/W, -q/W)` when `p > q`, else `(m, -q/W, p/W)`.  The divisions
are guarded (`W = 0` would be a Python `ZeroDivisionError`). -/
def mjScoreOfPairs (pairs : List (ℚ × ℚ)) : Except Unit (Option ℚ × ℚ × ℚ) :=
  if pairs = [] then Except.ok (none, 0, 0)
  else
    let sorted := List.insertionSort pairLE pairs
    let total := (sorted.map Prod.snd).sum
    match mjMedianLoop sorted 0 (total / 2) with
    | none => Except.error ()
    | some m =>
      let p := ((sorted.filter (fun q => m < q.1)).map Prod.snd).sum
      let q := ((sorted.filter (fun q => q.1 < m)).map Prod.snd).sum
      match divE p total, divE q total with
      | Except.ok pn, Except.ok qn =>
        if q < p then Except.ok (some m, pn, -qn) else Except.ok (some m, -qn, pn)
      | _, _ => Except.error ()

/-- A levels profile: (levels ballot, weight) pairs. -/
abbrev MJProfile := List (QDict × ℚ)

/-- Modelled from the spec: `ScorerLevels` is not in the source tree;
it scores each candidate of a levels ballot by its own evaluation, so
candidate `c` collects, over the profile, the pairs
`(ballot[c], weight)` from the ballots that evaluate `c`. -/
def mjPairs (profile : MJProfile) (c : String) : List (ℚ × ℚ) :=
  profile.filterMap (fun bw => (qlookup bw.1 c).map (fun v => (v, bw.2)))

/-- `RuleMajorityJudgment.scores_` at one candidate. -/
def mjScore (profile : MJProfile) (c : String) : Except Unit (Option ℚ × ℚ × ℚ) :=
  mjScoreOfPairs (mjPairs profile c)

/-- `RuleMajorityJudgment.compare_scores` (src lines 132–139) on
scores with a numeric median; the scale's `lt`/`gt` on the default
numeric scale are `<`/`>`, and Python compares the numeric pair
lexicographically. -/
def compare_scores (one another : ℚ × ℚ × ℚ) : ℤ :=
  if one = another then 0
  else if one.1 < another.1 then -1
  else if another.1 < one.1 then 1
  else if one.2.1 < another.2.1 ∨ (one.2.1 = another.2.1 ∧ one.2.2 < another.2.2) then -1
  else 1

/-- Candidate `c` ranks strictly above `d` under Majority Judgment
(`compare_scores = 1`); with `RuleScore`'s ordering this makes the
greater-scored candidate the winner of a two-candidate election. -/
def mjRanksAbove (profile : MJProfile) (c d : String) : Prop :=
  ∃ mc pc qc md pd qd,
    mjScore profile c = Except.ok (some mc, pc, qc)
      ∧ mjScore profile d = Except.ok (some md, pd, qd)
      ∧ compare_scores (mc, pc, qc) (md, pd, qd) = 1

/-- The profile of the claim:
`[{a:1., b:1.}, {a:.5, b:.6}, {a:.5, b:.4}, {a:.3, b:.2}]`, all
weights 1. -/
def mjExampleProfile : MJProfile :=
  [([("a", 1), ("b", 1)], 1),
   ([("a", 1/2), ("b", 3/5)], 1),
   ([("a", 1/2), ("b", 2/5)], 1),
   ([("a", 3/10), ("b", 1/5)], 1)]

/-! ### The weighted lower median property of the `scores_` median -/

/-- Weight of the pairs at levels `≤ m`. -/
def wLE (l : List (ℚ × ℚ)) (m : ℚ) : ℚ :=
  ((l.filter (fun q => q.1 ≤ m)).map Prod.snd).sum

/-- Weight of the pairs at levels `< m`. -/
def wLT (l : List (ℚ × ℚ)) (m : ℚ) : ℚ :=
  ((l.filter (fun q => q.1 < m)).map Prod.snd).sum

/-- Weight of the pairs at levels `> m`. -/
def wGT (l : List (ℚ × ℚ)) (m : ℚ) : ℚ :=
  ((l.filter (fun q => m < q.1)).map Prod.snd).sum

instance : IsTotal (ℚ × ℚ) pairLE := ⟨fun p q => le_total p.1 q.1⟩

instance : IsTrans (ℚ × ℚ) pairLE := ⟨fun _ _ _ h1 h2 => le_trans h1 h2⟩

theorem mjMedianLoop_mem (l : List (ℚ × ℚ)) (cum half m : ℚ)
    (h : mjMedianLoop l cum half = some m) : m ∈ l.map Prod.fst := by
  induction l generalizing cum with
  | nil => cases h
  | cons p rest ih =>
    obtain ⟨lv, w⟩ := p
    rw [mjMedianLoop] at h
    by_cases hcond : half ≤ cum + w
    · rw [if_pos hcond] at h
      injection h with hm
      simp [hm.symm]
    · rw [if_neg hcond] at h
      simp [ih _ h]

theorem wle_nonneg (l : List (ℚ × ℚ)) (m : ℚ) (hw : ∀ p ∈ l, 0 ≤ p.2) :
    0 ≤ wLE l m := by
  refine List.sum_nonneg ?_
  intro x hx
  obtain ⟨p, hp, rfl⟩ := List.mem_map.1 hx
  exact hw p (List.mem_of_mem_filter hp)

/-- On a sorted pair list with non-negative weights, the median loop
returns the first level whose cumulative weight reaches half: the
weight at levels `≤ m` (together with the weight already consumed)
reaches `half`, while the weight strictly below `m` stays under it. -/
theorem mjMedianLoop_bounds (l : List (ℚ × ℚ)) (hsort : List.Sorted pairLE l)
    (hw : ∀ p ∈ l, 0 ≤ p.2) :
    ∀ cum half m, cum < half → mjMedianLoop l cum half = some m →
      half ≤ cum + wLE l m ∧ cum + wLT l m < half := by
  induction l with
  | nil => intro cum half m _ h; cases h
  | cons p rest ih =>
    obtain ⟨lv, w⟩ := p
    intro cum half m hcum h
    have hsort' : List.Sorted pairLE rest := hsort.of_cons
    have hhead : ∀ q ∈ rest, lv ≤ q.1 := by
      intro q hq
      exact List.rel_of_sorted_cons hsort q hq
    have hw' : ∀ p ∈ rest, 0 ≤ p.2 := fun p hp => hw p (List.mem_cons_of_mem _ hp)
    have hw0 : (0 : ℚ) ≤ w := hw (lv, w) (List.mem_cons_self _ _)
    rw [mjMedianLoop] at h
    by_cases hcond : half ≤ cum + w
    · rw [if_pos hcond] at h
      injection h with hm
      subst hm
      constructor
      · have h1 : wLE ((lv, w) :: rest) lv = w + wLE rest lv := by
          simp [wLE, List.filter_cons]
        have h2 : 0 ≤ wLE rest lv := wle_nonneg rest lv hw'
        rw [h1]
        linarith
      · have h1 : wLT ((lv, w) :: rest) lv = 0 := by
          have hnil : ((lv, w) :: rest).filter (fun q => q.1 < lv) = [] := by
            rw [List.filter_eq_nil_iff]
            intro q hq
            rcases List.mem_cons.1 hq with rfl | hq'
            · simp
            · simp only [decide_eq_true_eq, not_lt]
              exact hhead q hq'
          simp [wLT, hnil]
        rw [h1]
        linarith
    · rw [if_neg hcond] at h
      push_neg at hcond
      have hmem : m ∈ rest.map Prod.fst := mjMedianLoop_mem rest _ _ m h
      have hlvm : lv ≤ m := by
        obtain ⟨q, hq, rfl⟩ := List.mem_map.1 hmem
        exact hhead q hq
      have hih := ih hsort' hw' (cum + w) half m hcond h
      constructor
      · have h1 : wLE ((lv, w) :: rest) m = w + wLE rest m := by
          simp [wLE, List.filter_cons, hlvm]
        rw [h1]
        linarith [hih.1]
      · by_cases hlt : lv < m
        · have h1 : wLT ((lv, w) :: rest) m = w + wLT rest m := by
            simp [wLT, List.filter_cons, hlt]
          rw [h1]
          linarith [hih.2]
        · have h1 : wLT ((lv, w) :: rest) m = wLT rest m := by
            simp [wLT, List.filter_cons, hlt]
          rw [h1]
          linarith [hih.2]

theorem perm_wLE (l₁ l₂ : List (ℚ × ℚ)) (h : l₁.Perm l₂) (m : ℚ) :
    wLE l₁ m = wLE l₂ m :=
  ((h.filter _).map Prod.snd).sum_eq

theorem perm_wLT (l₁ l₂ : List (ℚ × ℚ)) (h : l₁.Perm l₂) (m : ℚ) :
    wLT l₁ m = wLT l₂ m :=
  ((h.filter _).map Prod.snd).sum_eq

theorem perm_wGT (l₁ l₂ : List (ℚ × ℚ)) (h : l₁.Perm l₂) (m : ℚ) :
    wGT l₁ m = wGT l₂ m :=
  ((h.filter _).map Prod.snd).sum_eq

/-- Unpacking a successful `mjScoreOfPairs`: the median satisfies the
lower-weighted-median property, and the numeric pair is formed from
the proportions strictly above and strictly below the median. -/
theorem mjScoreOfPairs_characterization (pairs : List (ℚ × ℚ)) (m x y : ℚ)
    (hw : ∀ p ∈ pairs, 0 ≤ p.2) (htot : 0 < (pairs.map Prod.snd).sum)
    (h : mjScoreOfPairs pairs = Except.ok (some m, x, y)) :
    ((pairs.map Prod.snd).sum / 2 ≤ wLE pairs m
        ∧ wLT pairs m < (pairs.map Prod.snd).sum / 2)
      ∧ ((wLT pairs m < wGT pairs m
            ∧ x = wGT pairs m / (pairs.map Prod.snd).sum
            ∧ y = -(wLT pairs m / (pairs.map Prod.snd).sum))
        ∨ (¬ wLT pairs m < wGT pairs m
            ∧ x = -(wLT pairs m / (pairs.map Prod.snd).sum)
            ∧ y = wGT pairs m / (pairs.map Prod.snd).sum)) := by
  have hne : pairs ≠ [] := by
    intro hnil
    rw [hnil] at htot
    simp at htot
  rw [mjScoreOfPairs, if_neg hne] at h
  have hperm : (List.insertionSort pairLE pairs).Perm pairs :=
    List.perm_insertionSort pairLE pairs
  have hsort : List.Sorted pairLE (List.insertionSort pairLE pairs) :=
    List.sorted_insertionSort pairLE pairs
  have hwsort : ∀ p ∈ List.insertionSort pairLE pairs, 0 ≤ p.2 :=
    fun p hp => hw p (hperm.mem_iff.1 hp)
  have htoteq : ((List.insertionSort pairLE pairs).map Prod.snd).sum
      = (pairs.map Prod.snd).sum := (hperm.map Prod.snd).sum_eq
  simp only [htoteq] at h
  set W := (pairs.map Prod.snd).sum with hW
  rcases hloop : mjMedianLoop (List.insertionSort pairLE pairs) 0 (W / 2) with _ | m'
  · rw [hloop] at h
    cases h
  · rw [hloop] at h
    have hWne : W ≠ 0 := ne_of_gt htot
    simp only [divE, if_neg hWne] at h
    have hgt : (((List.insertionSort pairLE pairs).filter
        (fun q => m' < q.1)).map Prod.snd).sum = wGT pairs m' := perm_wGT _ _ hperm m'
    have hlt : (((List.insertionSort pairLE pairs).filter
        (fun q => q.1 < m')).map Prod.snd).sum = wLT pairs m' := perm_wLT _ _ hperm m'
    simp only [hgt, hlt] at h
    have hbounds := mjMedianLoop_bounds (List.insertionSort pairLE pairs) hsort hwsort
        0 (W / 2) m' (by positivity) hloop
    rw [perm_wLE _ _ hperm, perm_wLT _ _ hperm] at hbounds
    simp only [zero_add] at hbounds
    by_cases hpq : wLT pairs m' < wGT pairs m'
    · rw [if_pos hpq] at h
      injection h with h'
      have hm' : m' = m := by
        have := congrArg Prod.fst h'
        simpa using this
      subst hm'
      refine ⟨hbounds, Or.inl ⟨hpq, ?_, ?_⟩⟩
      · have := congrArg (fun t => t.2.1) h'
        simpa using this.symm
      · have := congrArg (fun t => t.2.2) h'
        simpa using this.symm
    · rw [if_neg hpq] at h
      injection h with h'
      have hm' : m' = m := by
        have := congrArg Prod.fst h'
        simpa using this
      subst hm'
      refine ⟨hbounds, Or.inr ⟨hpq, ?_, ?_⟩⟩
      · have := congrArg (fun t => t.2.1) h'
        simpa using this.symm
      · have := congrArg (fun t => t.2.2) h'
        simpa using this.symm

/-- **C1**: on the claimed profile, Majority Judgment scores are
`{a: (1/2, -1/4, 1/4), b: (2/5, 1/2, -1/4)}` and `a` ranks above `b`
(so `a` is the winner); and in general a successful score `(m, x, y)`
has `m` the weighted lower median (the first level at which the
cumulative weight reaches half the total, with strictly-below weight
under half), `p`/`q` the weighted proportions strictly above/below
`m`, and the numeric pair `(p, -q)` when `p > q`, else `(-q, p)`;
scores are compared lexicographically by `compare_scores`. -/
theorem majority_judgment_spec :
    mjScore mjExampleProfile "a" = Except.ok (some (1/2), -(1/4), 1/4)
    ∧ mjScore mjExampleProfile "b" = Except.ok (some (2/5), 1/2, -(1/4))
    ∧ mjRanksAbove mjExampleProfile "a" "b"
    ∧ (∀ (pairs : List (ℚ × ℚ)) (m x y : ℚ),
        (∀ p ∈ pairs, 0 ≤ p.2) → 0 < (pairs.map Prod.snd).sum →
        mjScoreOfPairs pairs = Except.ok (some m, x, y) →
        ((pairs.map Prod.snd).sum / 2 ≤ wLE pairs m
            ∧ wLT pairs m < (pairs.map Prod.snd).sum / 2)
          ∧ ((wLT pairs m < wGT pairs m
                ∧ x = wGT pairs m / (pairs.map Prod.snd).sum
                ∧ y = -(wLT pairs m / (pairs.map Prod.snd).sum))
            ∨ (¬ wLT pairs m < wGT pairs m
                ∧ x = -(wLT pairs m / (pairs.map Prod.snd).sum)
                ∧ y = wGT pairs m / (pairs.map Prod.snd).sum))) := by
  have ha : mjScore mjExampleProfile "a" = Except.ok (some (1/2), -(1/4), 1/4) := by
    norm_num [mjScore, mjScoreOfPairs, mjPairs, mjExampleProfile, qlookup, List.find?,
      List.insertionSort, List.orderedInsert, pairLE, mjMedianLoop, divE]
  have hb : mjScore mjExampleProfile "b" = Except.ok (some (2/5), 1/2, -(1/4)) := by
    norm_num [mjScore, mjScoreOfPairs, mjPairs, mjExampleProfile, qlookup, List.find?,
      List.insertionSort, List.orderedInsert, pairLE, mjMedianLoop, divE]
  refine ⟨ha, hb, ?_, ?_⟩
  · exact ⟨1/2, -(1/4), 1/4, 2/5, 1/2, -(1/4), ha, hb, by norm_num [compare_scores]⟩
  · intro pairs m x y hw htot h
    exact mjScoreOfPairs_characterization pairs m x y hw htot h

/-- Witness for `majority_judgment_spec` instantiating the general
characterization at candidate `a` of the example profile. -/
theorem majority_judgment_spec_witness :
    (mjExampleProfile ≠ [] )
      ∧ ((wLE (mjPairs mjExampleProfile "a") (1/2) ≥ 2
            ∧ wLT (mjPairs mjExampleProfile "a") (1/2) < 2)
        ∧ True) := by
  constructor
  · intro h
    cases h
  · constructor
    · have hpairs : mjPairs mjExampleProfile "a"
          = [(1, 1), (1/2, 1), (1/2, 1), (3/10, 1)] := by
        norm_num [mjPairs, mjExampleProfile, qlookup, List.find?,
          List.filterMap_cons, Option.map]
      have hw : ∀ p ∈ mjPairs mjExampleProfile "a", 0 ≤ p.2 := by
        rw [hpairs]
        norm_num
      have htot : 0 < ((mjPairs mjExampleProfile "a").map Prod.snd).sum := by
        rw [hpairs]
        norm_num
      have htot4 : ((mjPairs mjExampleProfile "a").map Prod.snd).sum = 4 := by
        rw [hpairs]
        norm_num
      have hchar := (majority_judgment_spec.2.2.2 (mjPairs mjExampleProfile "a")
        (1/2) (-(1/4)) (1/4) hw htot majority_judgment_spec.1).1
      rw [htot4] at hchar
      norm_num at hchar
      exact ⟨hchar.1, hchar.2⟩
    · trivial

/-! ## Claim C9: bounded-scale outputs stay within `[low, high]`
(src: ConverterBallotToLevelsInterval.py lines 85–128 and
ConverterBallotToLevelsListNonNumeric.py lines 50–56) -/

/-- Python `round` (the range converter rounds onto integer grades —
modelled from the spec, `ConverterBallotToLevelsRange` is not in the
source tree). -/
def roundQ (q : ℚ) : ℤ := round q

/-- Python list indexing: non-negative indices from the front,
negative indices wrap from the back, out-of-range raises
(`none`). -/
def pyIndex {α : Type} (l : List α) (i : ℤ) : Option α :=
  if 0 ≤ i then l[i.toNat]?
  else if (-i).toNat ≤ l.length then l[l.length - (-i).toNat]? else none

/-- `ConverterBallotToLevelsListNonNumeric.__call__` (src lines
50–56): convert through the range converter onto `ScaleRange(0,
len(levels)-1)` — modelled from the spec as the interval conversion
onto `[0, len-1]` followed by rounding — then map each rank onto the
ordered labels by index. -/
def convertToLevelsListNonNumeric (levels : List String) (give : Bool)
    (x : EBallot) (cands : Option (Finset String)) : Except Unit LevelsLabFun :=
  match convertToLevelsInterval 0 ((levels.length : ℚ) - 1) give x none with
  | Except.error _ => Except.error ()
  | Except.ok mid =>
    Except.ok (LevelsLabFun.restrict
      ⟨fun c => (mid.score c).bind (fun v => pyIndex levels (roundQ v)),
       mid.candidates, levels⟩ cands)

/-- Well-formedness of a convertible input: numeric level values lie
within their (bounded) source scale's bounds, label values belong to
the source scale's label list, and an order ballot satisfies the
ballot invariant (classes pairwise disjoint with no repeats, mentioned
candidates among the declared ones). -/
def SourceWF : EBallot → Prop
  | .veto _ _ => True
  | .oneName _ _ => True
  | .levelsNum b _ (.bounded slow shigh) => ∀ p ∈ b, slow ≤ p.2 ∧ p.2 ≤ shigh
  | .levelsNum _ _ .unbounded => True
  | .levelsLab b _ levels => ∀ p ∈ b, p.2 ∈ levels
  | .order classes F => classes.flatten.Nodup ∧ ∀ c ∈ classes.flatten, c ∈ F

instance : DecidablePred SourceWF := by
  intro x
  cases x with
  | veto c F => exact .isTrue trivial
  | oneName c F => exact .isTrue trivial
  | levelsNum b F scale =>
    cases scale with
    | bounded slow shigh => exact inferInstanceAs (Decidable (∀ p ∈ b, _ ∧ _))
    | unbounded => exact .isTrue trivial
  | levelsLab b F levels => exact inferInstanceAs (Decidable (∀ p ∈ b, _))
  | order classes F => exact inferInstanceAs (Decidable (_ ∧ _))

theorem mapE_mem {α β : Type} {f : α → Except Unit β} {l : List α} {res : List β}
    (h : mapE f l = Except.ok res) : ∀ b ∈ res, ∃ a ∈ l, f a = Except.ok b := by
  induction l generalizing res with
  | nil =>
    rw [mapE] at h
    injection h with h'
    subst h'
    intro b hb
    cases hb
  | cons a rest ih =>
    rw [mapE] at h
    rcases hfa : f a with _ | b₀ <;> rw [hfa] at h
    · cases h
    · rcases hrest : mapE f rest with _ | res₀ <;> rw [hrest] at h
      · cases h
      · injection h with h'
        subst h'
        intro b hb
        rcases List.mem_cons.1 hb with rfl | hb'
        · exact ⟨a, List.mem_cons_self _ _, hfa⟩
        · obtain ⟨a', ha', hfa'⟩ := ih hrest b hb'
          exact ⟨a', List.mem_cons_of_mem _ ha', hfa'⟩

theorem qlookup_mem {d : QDict} {c : String} {v : ℚ} (h : qlookup d c = some v) :
    (c, v) ∈ d := by
  rcases hf : d.find? (fun p => p.1 = c) with _ | p
  · rw [qlookup, hf] at h
    cases h
  · rw [qlookup, hf] at h
    injection h with h'
    have hm := List.mem_of_find?_eq_some hf
    have hp := List.find?_some hf
    simp only [decide_eq_true_eq] at hp
    have : p = (c, v) := by
      obtain ⟨p1, p2⟩ := p
      simp only at hp h'
      rw [hp, h']
    rw [this] at hm
    exact hm

theorem restrict_score_sub {b : LevelsFun} {cands : Option (Finset String)}
    {c : String} {v : ℚ} (h : (LevelsFun.restrict b cands).score c = some v) :
    b.score c = some v := by
  cases cands with
  | none => exact h
  | some s =>
    by_cases hc : c ∈ s
    · simpa [LevelsFun.restrict, hc] using h
    · simp [LevelsFun.restrict, hc] at h

theorem restrictLab_score_sub {b : LevelsLabFun} {cands : Option (Finset String)}
    {c lab : String} (h : (LevelsLabFun.restrict b cands).score c = some lab) :
    b.score c = some lab := by
  cases cands with
  | none => exact h
  | some s =>
    by_cases hc : c ∈ s
    · simpa [LevelsLabFun.restrict, hc] using h
    · simp [LevelsLabFun.restrict, hc] at h

/-- Bounds of the affine rescaling: mapping `s ∈ [0, smax]` into
`[low, high]`. -/
theorem affine_bound (low high s smax : ℚ) (hlh : low ≤ high) (hs0 : 0 ≤ s)
    (hsm : s ≤ smax) (hsmax : 0 < smax) :
    low ≤ low + (high - low) * s / smax ∧ low + (high - low) * s / smax ≤ high := by
  have h1 : 0 ≤ (high - low) * s / smax :=
    div_nonneg (mul_nonneg (by linarith) hs0) (le_of_lt hsmax)
  have h2 : (high - low) * s / smax ≤ high - low := by
    rw [div_le_iff₀ hsmax]
    nlinarith
  constructor <;> linarith

theorem foldl_min_le (l : List ℚ) (a : ℚ) :
    l.foldl min a ≤ a ∧ ∀ v ∈ l, l.foldl min a ≤ v := by
  induction l generalizing a with
  | nil => simp
  | cons b rest ih =>
    have h := ih (min a b)
    refine ⟨le_trans h.1 (min_le_left a b), ?_⟩
    intro v hv
    rcases List.mem_cons.1 hv with rfl | hv'
    · exact le_trans h.1 (min_le_right a v)
    · exact h.2 v hv'

theorem le_foldl_max (l : List ℚ) (a : ℚ) :
    a ≤ l.foldl max a ∧ ∀ v ∈ l, v ≤ l.foldl max a := by
  induction l generalizing a with
  | nil => simp
  | cons b rest ih =>
    have h := ih (max a b)
    refine ⟨le_trans (le_max_left a b) h.1, ?_⟩
    intro v hv
    rcases List.mem_cons.1 hv with rfl | hv'
    · exact le_trans (le_max_right a v) h.1
    · exact h.2 v hv'

theorem qMin_le {l : List ℚ} {xmin : ℚ} (h : qMin l = some xmin) :
    ∀ v ∈ l, xmin ≤ v := by
  cases l with
  | nil => cases h
  | cons a rest =>
    rw [qMin] at h
    injection h with h'
    subst h'
    intro v hv
    rcases List.mem_cons.1 hv with rfl | hv'
    · exact (foldl_min_le rest v).1
    · exact (foldl_min_le rest a).2 v hv'

theorem le_qMax {l : List ℚ} {xmax : ℚ} (h : qMax l = some xmax) :
    ∀ v ∈ l, v ≤ xmax := by
  cases l with
  | nil => cases h
  | cons a rest =>
    rw [qMax] at h
    injection h with h'
    subst h'
    intro v hv
    rcases List.mem_cons.1 hv with rfl | hv'
    · exact (le_foldl_max rest v).1
    · exact (le_foldl_max rest a).2 v hv'

theorem pyIndex_mem {α : Type} {l : List α} {i : ℤ} {a : α}
    (h : pyIndex l i = some a) : a ∈ l := by
  have hmem : ∀ {n : ℕ}, l[n]? = some a → a ∈ l := by
    intro n hn
    obtain ⟨hlt, rfl⟩ := List.getElem?_eq_some_iff.1 hn
    exact List.getElem_mem hlt
  rw [pyIndex] at h
  split at h
  · exact hmem h
  · split at h
    · exact hmem h
    · cases h

theorem divE_ok {a b r : ℚ} (h : divE a b = Except.ok r) : b ≠ 0 ∧ r = a / b := by
  rw [divE] at h
  by_cases hz : b = 0
  · rw [if_pos hz] at h
    cases h
  · rw [if_neg hz] at h
    injection h with h'
    exact ⟨hz, h'.symm⟩

theorem affineE_ok {low high slow shigh v w : ℚ}
    (h : affineE low high slow shigh v = Except.ok w) :
    shigh - slow ≠ 0 ∧ w = low + (high - low) * (v - slow) / (shigh - slow) := by
  rw [affineE] at h
  rcases hd : divE ((high - low) * (v - slow)) (shigh - slow) with _ | t
  · rw [hd] at h
    cases h
  · rw [hd] at h
    obtain ⟨hz, ht⟩ := divE_ok hd
    simp only [Except.map] at h
    injection h with h'
    exact ⟨hz, by rw [← h', ht]⟩

theorem convert_entry_of_score {α : Type} {f : α → Except Unit (String × ℚ)}
    {b : List α} {F : Finset String} {cands : Option (Finset String)}
    {out : LevelsFun} {c : String} {v : ℚ}
    (h : (mapE f b).map (fun d => LevelsFun.restrict ⟨qlookup d, F⟩ cands)
      = Except.ok out)
    (hs : out.score c = some v) :
    ∃ p ∈ b, f p = Except.ok (c, v) := by
  rcases hm : mapE f b with _ | d
  · rw [hm] at h
    cases h
  · rw [hm] at h
    simp only [Except.map] at h
    injection h with h'
    subst h'
    exact mapE_mem hm (c, v) (qlookup_mem (restrict_score_sub hs))

theorem bordaList_mem_flatten (classes : List (List String)) (base : ℚ) :
    ∀ p ∈ bordaList classes base, p.1 ∈ classes.flatten := by
  induction classes with
  | nil => intro p hp; cases hp
  | cons cls rest ih =>
    intro p hp
    rw [bordaList] at hp
    rcases List.mem_append.1 hp with hp1 | hp2
    · obtain ⟨c, hc, rfl⟩ := List.mem_map.1 hp1
      simp only [List.flatten_cons, List.mem_append]
      exact Or.inl hc
    · simp only [List.flatten_cons, List.mem_append]
      exact Or.inr (ih p hp2)

theorem bordaList_mem_bounds (classes : List (List String)) (base : ℚ)
    (hbase : 0 ≤ base) :
    ∀ p ∈ bordaList classes base,
      0 ≤ p.2 ∧ p.2 ≤ (classes.flatten.length : ℚ) - 1 + base := by
  induction classes with
  | nil => intro p hp; cases hp
  | cons cls rest ih =>
    intro p hp
    have hflat : ((cls :: rest).flatten.length : ℚ)
        = (cls.length : ℚ) + (rest.flatten.length : ℚ) := by
      rw [List.flatten_cons, List.length_append]
      push_cast
      ring
    rw [bordaList] at hp
    rcases List.mem_append.1 hp with hp1 | hp2
    · obtain ⟨c, hc, rfl⟩ := List.mem_map.1 hp1
      have hn : 1 ≤ (cls.length : ℚ) := by
        have hpos : 0 < cls.length := List.length_pos.2 (List.ne_nil_of_mem hc)
        exact_mod_cast hpos
      have hr0 : (0 : ℚ) ≤ (rest.flatten.length : ℚ) := by positivity
      constructor
      · simp only
        linarith
      · simp only
        rw [hflat]
        linarith
    · obtain ⟨h0, hle⟩ := ih p hp2
      refine ⟨h0, ?_⟩
      rw [hflat]
      have hc0 : (0 : ℚ) ≤ (cls.length : ℚ) := by positivity
      linarith

/-- **C9**: for every bounded target interval scale `[low, high]` and
well-formed convertible input (numeric values within the source
scale's bounds, labels within the source list, order-ballot
invariants), every value of a successfully produced levels ballot of
`ConverterBallotToLevelsInterval` lies in `[low, high]`; and every
label produced by `ConverterBallotToLevelsListNonNumeric` belongs to
the target scale's label list (hence lies between its bounds in the
scale's order). -/
theorem converter_levels_output_within_bounds :
    (∀ (low high : ℚ) (give : Bool) (x : EBallot) (cands : Option (Finset String))
        (out : LevelsFun) (c : String) (v : ℚ),
        low ≤ high → SourceWF x →
        convertToLevelsInterval low high give x cands = Except.ok out →
        out.score c = some v → low ≤ v ∧ v ≤ high)
    ∧ (∀ (levels : List String) (give : Bool) (x : EBallot)
        (cands : Option (Finset String)) (out : LevelsLabFun) (c lab : String),
        convertToLevelsListNonNumeric levels give x cands = Except.ok out →
        out.score c = some lab → lab ∈ levels) := by
  constructor
  · intro low high give x cands out c v hlh hwf h hs
    cases x with
    | veto cand F =>
      cases cand with
      | none =>
        rw [convertToLevelsInterval] at h
        injection h with h'
        subst h'
        have := restrict_score_sub hs
        simp at this
      | some w =>
        rw [convertToLevelsInterval] at h
        injection h with h'
        subst h'
        have h2 := restrict_score_sub hs
        by_cases hc : c ∈ F
        · by_cases he : c = w
          · simp only [LevelsFun.score] at h2
            simp [hc, he] at h2
            constructor <;> linarith [h2]
          · simp only [LevelsFun.score] at h2
            simp [hc, he] at h2
            constructor <;> linarith [h2]
        · simp only [LevelsFun.score] at h2
          simp [hc] at h2
    | oneName cand F =>
      cases cand with
      | none =>
        rw [convertToLevelsInterval] at h
        injection h with h'
        subst h'
        have := restrict_score_sub hs
        simp at this
      | some w =>
        rw [convertToLevelsInterval] at h
        injection h with h'
        subst h'
        have h2 := restrict_score_sub hs
        by_cases hc : c ∈ F
        · by_cases he : c = w
          · simp only [LevelsFun.score] at h2
            simp [hc, he] at h2
            constructor <;> linarith [h2]
          · simp only [LevelsFun.score] at h2
            simp [hc, he] at h2
            constructor <;> linarith [h2]
        · simp only [LevelsFun.score] at h2
          simp [hc] at h2
    | levelsNum b F scale =>
      cases scale with
      | bounded slow shigh =>
        rw [convertToLevelsInterval] at h
        obtain ⟨p, hp, hfp⟩ := convert_entry_of_score h hs
        rcases ha : affineE low high slow shigh p.2 with _ | w
        · rw [ha] at hfp
          cases hfp
        · rw [ha] at hfp
          simp only [Except.map] at hfp
          injection hfp with hfp'
          have hv : w = v := congrArg Prod.snd hfp'
          obtain ⟨hz, hw⟩ := affineE_ok ha
          obtain ⟨h1, h2⟩ := hwf p hp
          have hlt : slow < shigh := lt_of_le_of_ne (le_trans h1 h2) (by
            intro he
            exact hz (by rw [he]; ring))
          have := affine_bound low high (p.2 - slow) (shigh - slow) hlh
            (by linarith) (by linarith) (by linarith)
          rw [← hv, hw]
          exact this
      | unbounded =>
        rw [convertToLevelsInterval] at h
        rcases hmin : qMin (b.map Prod.snd) with _ | xmin <;> rw [hmin] at h
        · cases h
        · rcases hmax : qMax (b.map Prod.snd) with _ | xmax <;> rw [hmax] at h
          · cases h
          · dsimp only at h
            by_cases hin : low ≤ xmin ∧ xmax ≤ high
            · rw [if_pos hin] at h
              injection h with h'
              subst h'
              have h2 := restrict_score_sub hs
              have hmem := qlookup_mem h2
              have hvmem : v ∈ b.map Prod.snd :=
                List.mem_map.2 ⟨(c, v), hmem, rfl⟩
              exact ⟨le_trans hin.1 (qMin_le hmin v hvmem),
                le_trans (le_qMax hmax v hvmem) hin.2⟩
            · rw [if_neg hin] at h
              obtain ⟨p, hp, hfp⟩ := convert_entry_of_score h hs
              rcases ha : affineE low high xmin xmax p.2 with _ | w
              · rw [ha] at hfp
                cases hfp
              · rw [ha] at hfp
                simp only [Except.map] at hfp
                injection hfp with hfp'
                have hv : w = v := congrArg Prod.snd hfp'
                obtain ⟨hz, hw⟩ := affineE_ok ha
                have hvmem : p.2 ∈ b.map Prod.snd := List.mem_map.2 ⟨p, hp, rfl⟩
                have h1 := qMin_le hmin p.2 hvmem
                have h2 := le_qMax hmax p.2 hvmem
                have hlt : xmin < xmax := lt_of_le_of_ne (le_trans h1 h2) (by
                  intro he
                  exact hz (by rw [he]; ring))
                have := affine_bound low high (p.2 - xmin) (xmax - xmin) hlh
                  (by linarith) (by linarith) (by linarith)
                rw [← hv, hw]
                exact this
    | levelsLab b F levels =>
      rw [convertToLevelsInterval] at h
      obtain ⟨p, hp, hfp⟩ := convert_entry_of_score h hs
      rcases hidx : idxOf? p.2 levels with _ | i <;> rw [hidx] at hfp
      · cases hfp
      · dsimp only at hfp
        rcases hd : divE ((high - low) * (i : ℚ)) ((levels.length : ℚ) - 1)
            with _ | t <;> rw [hd] at hfp
        · cases hfp
        · simp only [Except.map] at hfp
          injection hfp with hfp'
          have hv : low + t = v := congrArg Prod.snd hfp'
          obtain ⟨hz, ht⟩ := divE_ok hd
          have hilt : i < levels.length := idxOf?_lt_length hidx
          have hiq : (i : ℚ) ≤ (levels.length : ℚ) - 1 := by
            have : (i : ℚ) + 1 ≤ (levels.length : ℚ) := by exact_mod_cast hilt
            linarith
          have hi0 : (0 : ℚ) ≤ (i : ℚ) := by positivity
          have hden : 0 < (levels.length : ℚ) - 1 :=
            lt_of_le_of_ne (le_trans hi0 hiq) (Ne.symm hz)
          have hb := affine_bound low high (i : ℚ) ((levels.length : ℚ) - 1)
            hlh hi0 hiq hden
          rw [← hv, ht]
          have harg : (high - low) * (i : ℚ) / ((levels.length : ℚ) - 1)
              = (high - low) * ((i : ℚ) - 0) / ((levels.length : ℚ) - 1) := by
            ring_nf
          constructor
          · have := hb.1
            nlinarith [hb.1]
          · nlinarith [hb.2]
    | order classes F =>
      rw [convertToLevelsInterval] at h
      obtain ⟨hnodup, hsub⟩ := hwf
      obtain ⟨p, hp, hfp⟩ := convert_entry_of_score h hs
      rcases hd : divE ((high - low) * p.2)
          (if give then (F.card : ℚ) - 1 else ((classes.flatten.dedup.length : ℚ)) - 1)
          with _ | t <;> rw [hd] at hfp
      · cases hfp
      · simp only [Except.map] at hfp
        injection hfp with hfp'
        have hv : low + t = v := congrArg Prod.snd hfp'
        obtain ⟨hz, ht⟩ := divE_ok hd
        set base : ℚ := if give then ((F \ classes.flatten.toFinset).card : ℚ) else 0
          with hbase
        have hbase0 : 0 ≤ base := by
          rw [hbase]
          split <;> positivity
        obtain ⟨h0, hle⟩ := bordaList_mem_bounds classes base hbase0 p hp
        have hmem := bordaList_mem_flatten classes base p hp
        have hlen1 : 1 ≤ (classes.flatten.length : ℚ) := by
          have hpos : 0 < classes.flatten.length :=
            List.length_pos.2 (List.ne_nil_of_mem hmem)
          exact_mod_cast hpos
        have hsmax : (classes.flatten.length : ℚ) - 1 + base
            = (if give then (F.card : ℚ) - 1
                else ((classes.flatten.dedup.length : ℚ)) - 1) := by
          cases give with
          | false =>
            simp only [if_false, hbase]
            rw [hnodup.dedup]
            simp
          | true =>
            simp only [if_true, hbase]
            have hsubF : classes.flatten.toFinset ⊆ F := by
              intro a ha
              exact hsub a (List.mem_toFinset.1 ha)
            have hcard : (F \ classes.flatten.toFinset).card
                + classes.flatten.toFinset.card = F.card :=
              Finset.card_sdiff_add_card_eq_card hsubF
            have hfl : classes.flatten.toFinset.card = classes.flatten.length :=
              List.toFinset_card_of_nodup hnodup
            rw [hfl] at hcard
            push_cast [← hcard]
            ring
        rw [← hsmax] at hz ht
        have hden : 0 < (classes.flatten.length : ℚ) - 1 + base :=
          lt_of_le_of_ne (le_trans h0 hle) (Ne.symm hz)
        have hb := affine_bound low high p.2 ((classes.flatten.length : ℚ) - 1 + base)
          hlh h0 hle hden
        rw [← hv, ht]
        exact hb
  · intro levels give x cands out c lab h hs
    rw [convertToLevelsListNonNumeric] at h
    rcases hmid : convertToLevelsInterval 0 ((levels.length : ℚ) - 1) give x none
        with _ | mid <;> rw [hmid] at h
    · cases h
    · injection h with h'
      subst h'
      have h2 := restrictLab_score_sub hs
      simp only [Option.bind_eq_some] at h2
      obtain ⟨w, _, hpy⟩ := h2
      exact pyIndex_mem hpy

/-- Witness for `converter_levels_output_within_bounds` at the veto
ballot `Veto('a', candidates={a,b,c})` on `Interval(0,1)`, candidate
`b`, value `1`. -/
theorem converter_levels_output_within_bounds_witness :
    ((0 : ℚ) ≤ 1 ∧ SourceWF (EBallot.veto (some "a") {"a", "b", "c"}))
      ∧ ((0 : ℚ) ≤ 1 ∧ (1 : ℚ) ≤ 1) := by
  refine ⟨⟨by norm_num, by simp [SourceWF]⟩, ?_⟩
  refine converter_levels_output_within_bounds.1 0 1 true
    (EBallot.veto (some "a") {"a", "b", "c"}) none _ "b" 1 (by norm_num)
    (by simp [SourceWF]) rfl ?_
  simp [convertToLevelsInterval, LevelsFun.restrict]

end Whalrus
